import Mathlib

/-!
Shallow embedding of the `nostd-interactive-terminal` crate
(`src/terminal.rs`, `src/history.rs`) in Lean 4.

Modelling choices:
* Bytes (`u8`) are modelled as `Nat`; every range check of the source is
  reproduced literally, so values ≥ 256 simply fail every pattern.
* `heapless::Vec<u8, BUF_SIZE>` is a `List Nat` together with the capacity
  `bufSize` carried in the structure (the const generic `BUF_SIZE`).
* `heapless::String<BUF_SIZE>` values are byte lists known to be valid UTF-8;
  `String::from_utf8` / `String::try_from` are modelled via `utf8Valid` and a
  length check respectively.
* Rust methods mutating `&mut self` become functions `State → State × Result`.
-/

/-- Model of `TerminalConfig` (src/terminal.rs). -/
structure TerminalConfig where
  buffer_size : Nat
  prompt : List Nat
  echo : Bool
  ansi_enabled : Bool
deriving DecidableEq

/-- Model of `KeyCode` (src/terminal.rs). `char b` is `KeyCode::Char(u8)`. -/
inductive KeyCode where
  | backspace
  | delete
  | enter
  | tab
  | escape
  | arrowUp
  | arrowDown
  | arrowLeft
  | arrowRight
  | ctrlC
  | ctrlD
  | char (b : Nat)
deriving DecidableEq

/-- Model of the private `EscapeState` (src/terminal.rs). -/
inductive EscapeState where
  | normal
  | escape
  | bracket
deriving DecidableEq

/-- Model of `TerminalEvent` (src/terminal.rs). -/
inductive TerminalEvent where
  | none
  | bufferChanged
  | cursorMoved
  | commandReady
  | emptyCommand
  | bufferFull
  | interrupt
  | endOfFile
  | historyPrevious
  | historyNext
deriving DecidableEq

/-- Model of `Terminal<BUF_SIZE>` (src/terminal.rs). `bufSize` is the const
generic `BUF_SIZE`; `buffer` is the `heapless::Vec<u8, BUF_SIZE>`. -/
structure Terminal where
  bufSize : Nat
  config : TerminalConfig
  buffer : List Nat
  cursor_pos : Nat
  escape_state : EscapeState
deriving DecidableEq

/-- `Terminal::new` — empty buffer, cursor 0, escape state `Normal`. -/
def Terminal.new (bufSize : Nat) (config : TerminalConfig) : Terminal :=
  { bufSize := bufSize
    config := config
    buffer := []
    cursor_pos := 0
    escape_state := .normal }

/-- `Terminal::clear_buffer`. -/
def Terminal.clear_buffer (t : Terminal) : Terminal :=
  { t with buffer := [], cursor_pos := 0 }

/-- For a leading UTF-8 byte, the list of `(lo, hi)` ranges the following
continuation bytes must fall into, or `none` for an invalid leading byte.
These are exactly the ranges checked by `core::str::from_utf8` (RFC 3629:
tightened second-byte ranges for `0xE0`, `0xED`, `0xF0`, `0xF4`; `0xC0`,
`0xC1` and bytes above `0xF4` invalid). -/
def utf8Expect (b : Nat) : Option (List (Nat × Nat)) :=
  if b ≤ 0x7F then some []
  else if 0xC2 ≤ b && b ≤ 0xDF then some [(0x80, 0xBF)]
  else if b = 0xE0 then some [(0xA0, 0xBF), (0x80, 0xBF)]
  else if 0xE1 ≤ b && b ≤ 0xEC then some [(0x80, 0xBF), (0x80, 0xBF)]
  else if b = 0xED then some [(0x80, 0x9F), (0x80, 0xBF)]
  else if 0xEE ≤ b && b ≤ 0xEF then some [(0x80, 0xBF), (0x80, 0xBF)]
  else if b = 0xF0 then some [(0x90, 0xBF), (0x80, 0xBF), (0x80, 0xBF)]
  else if 0xF1 ≤ b && b ≤ 0xF3 then some [(0x80, 0xBF), (0x80, 0xBF), (0x80, 0xBF)]
  else if b = 0xF4 then some [(0x80, 0x8F), (0x80, 0xBF), (0x80, 0xBF)]
  else none

/-- Run the UTF-8 DFA: `exp` is the list of ranges still expected for the
current multi-byte sequence (empty between code points). -/
def utf8Scan : List (Nat × Nat) → List Nat → Bool
  | [], [] => true
  | [], b :: rest =>
    match utf8Expect b with
    | some exp => utf8Scan exp rest
    | none => false
  | _ :: _, [] => false
  | (lo, hi) :: exp, b :: rest =>
    if lo ≤ b && b ≤ hi then utf8Scan exp rest else false

/-- Full UTF-8 validation of a byte list (model of `core::str::from_utf8`
returning `Ok`). -/
def utf8Valid (l : List Nat) : Bool :=
  utf8Scan [] l

/-- `Terminal::buffer_str` — `core::str::from_utf8(buffer)`, returning the
bytes of the resulting `&str` or a `Utf8Error`. -/
def Terminal.buffer_str (t : Terminal) : Except Unit (List Nat) :=
  if utf8Valid t.buffer then .ok t.buffer else .error ()

/-- `Terminal::process_byte` (src/terminal.rs lines 95-133): the ANSI escape
decoder state machine. Returns the updated terminal and the emitted key. -/
def Terminal.process_byte (t : Terminal) (byte : Nat) : Terminal × Option KeyCode :=
  match t.escape_state with
  | .normal =>
    if byte = 0x0D || byte = 0x0A then (t, some .enter)
    else if byte = 0x08 || byte = 0x7F then (t, some .backspace)
    else if byte = 0x03 then (t, some .ctrlC)
    else if byte = 0x04 then (t, some .ctrlD)
    else if byte = 0x09 then (t, some .tab)
    else if byte = 0x1B then ({ t with escape_state := .escape }, none)
    else if 0x20 ≤ byte && byte < 0x7F then (t, some (.char byte))
    else (t, none)
  | .escape =>
    if byte = 0x5B then ({ t with escape_state := .bracket }, none)
    else ({ t with escape_state := .normal }, some .escape)
  | .bracket =>
    let t1 := { t with escape_state := .normal }
    if byte = 0x41 then (t1, some .arrowUp)
    else if byte = 0x42 then (t1, some .arrowDown)
    else if byte = 0x43 then (t1, some .arrowRight)
    else if byte = 0x44 then (t1, some .arrowLeft)
    else if byte = 0x33 then (t1, some .delete)
    else (t1, none)

/-- `Terminal::handle_key` (src/terminal.rs lines 136-198). Returns the
updated terminal and the produced `TerminalEvent`. -/
def Terminal.handle_key (t : Terminal) (key : KeyCode) : Terminal × TerminalEvent :=
  match key with
  | .enter =>
    if t.buffer.isEmpty then (t, .emptyCommand) else (t, .commandReady)
  | .backspace =>
    if t.cursor_pos > 0 && !t.buffer.isEmpty then
      ({ t with buffer := t.buffer.eraseIdx (t.cursor_pos - 1)
                cursor_pos := t.cursor_pos - 1 }, .bufferChanged)
    else (t, .none)
  | .delete =>
    if t.cursor_pos < t.buffer.length then
      ({ t with buffer := t.buffer.eraseIdx t.cursor_pos }, .bufferChanged)
    else (t, .none)
  | .arrowLeft =>
    if t.cursor_pos > 0 then
      ({ t with cursor_pos := t.cursor_pos - 1 }, .cursorMoved)
    else (t, .none)
  | .arrowRight =>
    if t.cursor_pos < t.buffer.length then
      ({ t with cursor_pos := t.cursor_pos + 1 }, .cursorMoved)
    else (t, .none)
  | .arrowUp => (t, .historyPrevious)
  | .arrowDown => (t, .historyNext)
  | .ctrlC => (t, .interrupt)
  | .ctrlD => (t, .endOfFile)
  | .char byte =>
    if t.buffer.length < t.bufSize then
      let buf1 :=
        if t.cursor_pos = t.buffer.length then t.buffer ++ [byte]
        else t.buffer.insertIdx t.cursor_pos byte
      ({ t with buffer := buf1, cursor_pos := t.cursor_pos + 1 }, .bufferChanged)
    else (t, .bufferFull)
  | _ => (t, .none)

/-- `Terminal::take_command` (src/terminal.rs lines 201-205):
`String::from_utf8(buffer.clone())` then `clear_buffer` on success; on a
UTF-8 error the `?` returns early without clearing. -/
def Terminal.take_command (t : Terminal) : Terminal × Except Unit (List Nat) :=
  if utf8Valid t.buffer then (t.clear_buffer, .ok t.buffer)
  else (t, .error ())

/-- `Terminal::set_buffer` (src/terminal.rs lines 208-213): clears the buffer,
then `extend_from_slice` (heapless: all-or-nothing capacity check), and only
on success sets `cursor_pos := buffer.len()`; the `?` on failure returns with
the buffer already cleared and the cursor untouched. -/
def Terminal.set_buffer (t : Terminal) (content : List Nat) : Terminal × Except Unit Unit :=
  let t1 := { t with buffer := ([] : List Nat) }
  if t1.buffer.length + content.length > t.bufSize then (t1, .error ())
  else ({ t1 with buffer := t1.buffer ++ content, cursor_pos := content.length }, .ok ())

example :
    ((Terminal.new 4 ⟨128, [], true, true⟩).handle_key (.char 0x61)).1.buffer = [0x61] := by
  decide

example : utf8Valid [0x68, 0x69] = true := by decide

example : utf8Valid [0xFF] = false := by decide

example : utf8Valid [0xC3, 0xA9] = true := by decide

example : utf8Valid [0xC3] = false := by decide

/-- Model of `HistoryConfig` (src/history.rs). -/
structure HistoryConfig where
  max_entries : Nat
  deduplicate : Bool
deriving DecidableEq

/-- Model of `History<BUF_SIZE>` (src/history.rs). `entries` models
`heapless::Vec<String<BUF_SIZE>, 16>`: the inline capacity of the vector is
the literal 16, independent of `config.max_entries`. `bufSize` is the const
generic `BUF_SIZE` bounding each entry string. -/
structure History where
  bufSize : Nat
  entries : List (List Nat)
  config : HistoryConfig
  current_index : Option Nat
deriving DecidableEq

/-- `History::new`. -/
def History.new (bufSize : Nat) (config : HistoryConfig) : History :=
  { bufSize := bufSize, entries := [], config := config, current_index := none }

/-- ASCII whitespace bytes recognised by `char::is_whitespace` (`str::trim`).
The model covers ASCII content; non-ASCII Unicode whitespace code points are
multi-byte in UTF-8 and outside this byte-level model. -/
def isWhitespaceByte (b : Nat) : Bool :=
  b = 0x09 || b = 0x0A || b = 0x0B || b = 0x0C || b = 0x0D || b = 0x20

/-- `command.trim().is_empty()` for ASCII content: every byte is whitespace. -/
def trimIsEmpty (s : List Nat) : Bool :=
  s.all isWhitespaceByte

/-- `History::add` (src/history.rs lines 39-64). In source order: skip
trim-empty commands; skip the deduplication case; `String::try_from` (fails
when the command exceeds `BUF_SIZE`); `remove(0)` when
`entries.len() >= max_entries` (heapless `remove` on an empty vector would
panic — unreachable when `max_entries ≥ 1`, modelled as `tail`); `push` onto
the inline-capacity-16 vector (fails at 16 elements); on a successful push,
reset `current_index`. -/
def History.add (h : History) (command : List Nat) : History × Except Unit Unit :=
  if trimIsEmpty command then (h, .ok ())
  else if h.config.deduplicate && h.entries.getLast? = some command then (h, .ok ())
  else if command.length > h.bufSize then (h, .error ())
  else
    let entries1 :=
      if h.entries.length ≥ h.config.max_entries then h.entries.tail else h.entries
    if entries1.length < 16 then
      ({ h with entries := entries1 ++ [command], current_index := none }, .ok ())
    else ({ h with entries := entries1 }, .error ())

/-- `History::previous` (src/history.rs lines 67-80). -/
def History.previous (h : History) : History × Option (List Nat) :=
  if h.entries.isEmpty then (h, none)
  else
    match h.current_index with
    | none =>
      let i := h.entries.length - 1
      ({ h with current_index := some i }, h.entries.get? i)
    | some 0 => (h, h.entries.get? 0)
    | some (i + 1) =>
      ({ h with current_index := some i }, h.entries.get? i)

/-- `History::next` (src/history.rs lines 83-95). -/
def History.next (h : History) : History × Option (List Nat) :=
  match h.current_index with
  | none => (h, none)
  | some i =>
    if i ≥ h.entries.length - 1 then
      ({ h with current_index := none }, none)
    else
      ({ h with current_index := some (i + 1) }, h.entries.get? (i + 1))

/-- Fold `History::add` over a list of lines, discarding the `Result`s (the
way `read_line` calls `let _ = hist.add(&command)`). -/
def History.addAll (h : History) (lines : List (List Nat)) : History :=
  lines.foldl (fun acc l => (acc.add l).1) h

/-- One result of `reader.read(&mut byte_buf)` for a 1-byte buffer: `Ok(n)`
carrying the byte written into `byte_buf[0]`, or an I/O error. -/
inductive ReadResult where
  | ok (count : Nat) (byte : Nat)
  | err
deriving DecidableEq

/-- Model of `ReadLineError` (src/terminal.rs lines 364-369). -/
inductive ReadLineError where
  | ioError
  | utf8Error
  | endOfFile
deriving DecidableEq

/-- Model of `TerminalReader<BUF_SIZE>` (src/terminal.rs lines 232-235). -/
structure TerminalReader where
  terminal : Terminal
  history : Option History
deriving DecidableEq

/-- `TerminalReader::new`. -/
def TerminalReader.new (bufSize : Nat) (config : TerminalConfig)
    (history : Option History) : TerminalReader :=
  { terminal := Terminal.new bufSize config, history := history }

/-- One iteration of the `read_line` loop (src/terminal.rs lines 262-359) in
the `redraw_signal = None` branch, with writer output abstracted away (the
writer is an external collaborator and never affects control flow). Returns
the updated reader and `some` outcome when the iteration returns from
`read_line`, `none` when the loop continues. Note the source matches the read
result with `Ok(1) => ... , _ => continue`: `Err(_)` and `Ok(0)` both fall to
`continue`. -/
def TerminalReader.read_line_step (r : TerminalReader) (res : ReadResult) :
    TerminalReader × Option (Except ReadLineError (List Nat)) :=
  match res with
  | .ok 1 b =>
    let (term1, keyOpt) := r.terminal.process_byte b
    let (term2, event) :=
      match keyOpt with
      | some key => term1.handle_key key
      | none => (term1, TerminalEvent.none)
    let r2 := { r with terminal := term2 }
    match event with
    | .commandReady =>
      match term2.take_command with
      | (term3, .ok command) =>
        let hist1 :=
          match r.history with
          | some hist => some (hist.add command).1
          | none => none
        ({ terminal := term3, history := hist1 }, some (.ok command))
      | (term3, .error _) =>
        ({ r2 with terminal := term3 }, some (.error .utf8Error))
    | .emptyCommand => (r2, none)
    | .bufferChanged => (r2, none)
    | .interrupt => ({ r2 with terminal := term2.clear_buffer }, none)
    | .endOfFile => (r2, some (.error .endOfFile))
    | .historyPrevious =>
      match r.history with
      | some hist =>
        let (hist1, entryOpt) := hist.previous
        let term3 :=
          match entryOpt with
          | some entry => (term2.set_buffer entry).1
          | none => term2
        ({ terminal := term3, history := some hist1 }, none)
      | none => (r2, none)
    | .historyNext =>
      match r.history with
      | some hist =>
        let (hist1, entryOpt) := hist.next
        let term3 :=
          match entryOpt with
          | some entry => (term2.set_buffer entry).1
          | none => term2.clear_buffer
        ({ terminal := term3, history := some hist1 }, none)
      | none => (r2, none)
    | _ => (r2, none)
  | _ => (r, none)

/-- Outcome of running the `read_line` loop against a finite prefix of read
results: the call returned a line, returned an error, or consumed the whole
prefix and is still looping (waiting on the next read). -/
inductive LoopOutcome where
  | returned (line : List Nat)
  | failed (e : ReadLineError)
  | looping (r : TerminalReader)
deriving DecidableEq

/-- Run the `read_line` loop over a list of read results. -/
def TerminalReader.read_line_run (r : TerminalReader) :
    List ReadResult → LoopOutcome
  | [] => .looping r
  | res :: rest =>
    match r.read_line_step res with
    | (r1, none) => r1.read_line_run rest
    | (_, some (.ok line)) => .returned line
    | (_, some (.error e)) => .failed e

example :
    (TerminalReader.new 8 ⟨128, [], true, true⟩ none).read_line_run
      [.ok 1 0x68, .ok 1 0x69, .ok 1 0x0D] = .returned [0x68, 0x69] := by
  decide

/-- The `TerminalConfig::default()` values: buffer_size 128, prompt `"> "`,
echo and ANSI enabled. -/
def defaultConfig : TerminalConfig :=
  { buffer_size := 128, prompt := [0x3E, 0x20], echo := true, ansi_enabled := true }

/-- Feed a byte sequence through `process_byte`, collecting the emitted keys
in order. -/
def Terminal.processBytes (t : Terminal) : List Nat → Terminal × List KeyCode
  | [] => (t, [])
  | b :: rest =>
    let p := t.process_byte b
    let q := p.1.processBytes rest
    (q.1, p.2.toList ++ q.2)

/-- Replace only the `buffer_size` field of the configuration. -/
def Terminal.setConfigBufferSize (t : Terminal) (n : Nat) : Terminal :=
  { t with config := { t.config with buffer_size := n } }

/-- C7: from any terminal state whose buffer length equals the capacity
`BUF_SIZE`, `handle_key (Char b)` returns `BufferFull` and leaves the whole
state (buffer and cursor included) unchanged. -/
theorem insert_at_capacity_buffer_full (t : Terminal) (b : Nat)
    (h : t.buffer.length = t.bufSize) :
    t.handle_key (KeyCode.char b) = (t, TerminalEvent.bufferFull) := by
  simp [Terminal.handle_key, h]

/-- Witness for C7 at a concrete full buffer. -/
theorem insert_at_capacity_buffer_full_witness :
    (({ bufSize := 2, config := defaultConfig, buffer := [0x61, 0x62],
        cursor_pos := 2, escape_state := .normal } : Terminal).buffer.length = 2) ∧
    ({ bufSize := 2, config := defaultConfig, buffer := [0x61, 0x62],
       cursor_pos := 2, escape_state := .normal } : Terminal).handle_key (KeyCode.char 0x63) =
      ({ bufSize := 2, config := defaultConfig, buffer := [0x61, 0x62],
         cursor_pos := 2, escape_state := .normal }, TerminalEvent.bufferFull) :=
  ⟨rfl, insert_at_capacity_buffer_full _ 0x63 rfl⟩

/-- C8: from the `Idle` (Normal) decoder state, `ESC [ A` emits exactly one
`ArrowUp` and returns the state to `Idle` with nothing else changed, and
`ESC x` emits exactly one `Escape` with `x` consumed (no `Char 0x78` ever
appears in the emitted keys). -/
theorem decoder_roundtrip (t : Terminal) (h : t.escape_state = .normal) :
    t.processBytes [0x1B, 0x5B, 0x41] = (t, [KeyCode.arrowUp]) ∧
    t.processBytes [0x1B, 0x78] = (t, [KeyCode.escape]) := by
  obtain ⟨n, cfg, buf, cur, es⟩ := t
  cases es
  case normal => exact ⟨rfl, rfl⟩
  case escape => simp [Terminal.escape_state] at h
  case bracket => simp [Terminal.escape_state] at h

/-- Witness for C8 at a fresh terminal. -/
theorem decoder_roundtrip_witness :
    (Terminal.new 8 defaultConfig).escape_state = .normal ∧
    ((Terminal.new 8 defaultConfig).processBytes [0x1B, 0x5B, 0x41] =
        (Terminal.new 8 defaultConfig, [KeyCode.arrowUp]) ∧
      (Terminal.new 8 defaultConfig).processBytes [0x1B, 0x78] =
        (Terminal.new 8 defaultConfig, [KeyCode.escape])) :=
  ⟨rfl, decoder_roundtrip _ rfl⟩

/-- C2 counterexample: after `ESC [ 3` (which emits `Delete` and returns to
`Idle`), the trailing `~` (0x7E) of a full delete sequence is NOT silently
dropped: `process_byte` emits `Char 0x7E`, because 0x7E lies in the printable
range `[0x20, 0x7F)` of the `Idle` state. -/
theorem delete_tail_tilde_not_dropped :
    (((Terminal.new 8 defaultConfig).processBytes [0x1B, 0x5B, 0x33]).1.process_byte 0x7E).2 =
      some (KeyCode.char 0x7E) := rfl

/-- C2 (amended): `ESC [ 3` emits exactly one `Delete` and returns to `Idle`;
the trailing `~` is then consumed by `Idle` as a printable byte, emitting
`Char 0x7E` (a spurious printable key), not silently dropped. -/
theorem delete_tail_tilde_emits_printable (t : Terminal)
    (h : t.escape_state = .normal) :
    t.processBytes [0x1B, 0x5B, 0x33] = (t, [KeyCode.delete]) ∧
    t.process_byte 0x7E = (t, some (KeyCode.char 0x7E)) := by
  obtain ⟨n, cfg, buf, cur, es⟩ := t
  cases es
  case normal => exact ⟨rfl, rfl⟩
  case escape => simp [Terminal.escape_state] at h
  case bracket => simp [Terminal.escape_state] at h

/-- Witness for the amended C2 at a fresh terminal. -/
theorem delete_tail_tilde_emits_printable_witness :
    (Terminal.new 8 defaultConfig).escape_state = .normal ∧
    ((Terminal.new 8 defaultConfig).processBytes [0x1B, 0x5B, 0x33] =
        (Terminal.new 8 defaultConfig, [KeyCode.delete]) ∧
      (Terminal.new 8 defaultConfig).process_byte 0x7E =
        (Terminal.new 8 defaultConfig, some (KeyCode.char 0x7E))) :=
  ⟨rfl, delete_tail_tilde_emits_printable _ rfl⟩

/-- C4 counterexample: with the (directly reachable) buffer `[0xFF]`,
`take_command` surfaces the encoding failure but the buffer is NOT cleared:
content stays `[0xFF]` and the cursor stays 1. -/
theorem take_command_error_buffer_not_cleared :
    ((((Terminal.new 4 defaultConfig).handle_key (KeyCode.char 0xFF)).1.take_command).2 =
        Except.error ()) ∧
    (((Terminal.new 4 defaultConfig).handle_key (KeyCode.char 0xFF)).1.take_command).1.buffer =
        [0xFF] ∧
    (((Terminal.new 4 defaultConfig).handle_key (KeyCode.char 0xFF)).1.take_command).1.cursor_pos =
        1 :=
  ⟨rfl, rfl, rfl⟩

/-- C4 (amended): when the accumulated bytes are not valid UTF-8,
`take_command` returns the encoding error and leaves the terminal (buffer and
cursor included) completely unchanged; the buffer is cleared only on
success. -/
theorem take_command_encoding_failure_keeps_buffer (t : Terminal)
    (h : utf8Valid t.buffer = false) :
    t.take_command = (t, Except.error ()) := by
  simp [Terminal.take_command, h]

/-- Witness for the amended C4 at the buffer `[0xFF]`. -/
theorem take_command_encoding_failure_keeps_buffer_witness :
    utf8Valid (((Terminal.new 4 defaultConfig).handle_key (KeyCode.char 0xFF)).1).buffer = false ∧
    (((Terminal.new 4 defaultConfig).handle_key (KeyCode.char 0xFF)).1).take_command =
      ((((Terminal.new 4 defaultConfig).handle_key (KeyCode.char 0xFF)).1), Except.error ()) :=
  ⟨rfl, take_command_encoding_failure_keeps_buffer _ rfl⟩

/-- C3: an I/O failure from `reader.read` is swallowed by the
`_ => continue` arm of `read_line`: the iteration changes nothing and the
loop keeps running, so at the concrete failing input (a single erroring
read) `read_line` is still looping and in particular never returns
`IoError` — the `ReadLineError::IoError` variant is never constructed. -/
theorem read_error_continues_loop :
    (∀ (r : TerminalReader) (rest : List ReadResult),
      r.read_line_step ReadResult.err = (r, none) ∧
      r.read_line_run (ReadResult.err :: rest) = r.read_line_run rest) ∧
    (TerminalReader.new 8 defaultConfig none).read_line_run [ReadResult.err] =
      LoopOutcome.looping (TerminalReader.new 8 defaultConfig none) :=
  ⟨fun _ _ => ⟨rfl, rfl⟩, rfl⟩

/-- C10: `process_byte` and `handle_key` commute with changing
`config.buffer_size`: the field is never consulted, the effective capacity is
the const generic `BUF_SIZE` alone, so two states differing only in
`config.buffer_size` produce identical keys/events and identically related
states. -/
theorem buffer_size_config_irrelevant (t : Terminal) (n b : Nat) (k : KeyCode) :
    (t.setConfigBufferSize n).process_byte b =
      (((t.process_byte b).1).setConfigBufferSize n, (t.process_byte b).2) ∧
    (t.setConfigBufferSize n).handle_key k =
      (((t.handle_key k).1).setConfigBufferSize n, (t.handle_key k).2) := by
  obtain ⟨m, cfg, buf, cur, es⟩ := t
  constructor
  · cases es <;>
      simp only [Terminal.process_byte, Terminal.setConfigBufferSize] <;>
      split_ifs <;> rfl
  · cases k <;>
      simp only [Terminal.handle_key, Terminal.setConfigBufferSize] <;>
      split_ifs <;> rfl

/-- The EditBuffer invariant of the spec: `cursor ≤ length ≤ BUF_SIZE`. -/
@[reducible] def Terminal.bufferInv (t : Terminal) : Prop :=
  t.cursor_pos ≤ t.buffer.length ∧ t.buffer.length ≤ t.bufSize

/-- C1 counterexample: from the reachable state with `BUF_SIZE = 1`, buffer
`[0x61]` and cursor 1 (one printable typed), `set_buffer "bc"` fails the
capacity check — but it has already cleared the buffer and it leaves the
cursor at 1, so afterwards `cursor_pos ≤ buffer.length` is violated. -/
theorem set_buffer_breaks_cursor_invariant :
    (((((Terminal.new 1 defaultConfig).handle_key (KeyCode.char 0x61)).1).set_buffer
        [0x62, 0x63]).2 = Except.error ()) ∧
    ¬ ((((((Terminal.new 1 defaultConfig).handle_key (KeyCode.char 0x61)).1).set_buffer
        [0x62, 0x63]).1).cursor_pos ≤
       (((((Terminal.new 1 defaultConfig).handle_key (KeyCode.char 0x61)).1).set_buffer
        [0x62, 0x63]).1).buffer.length) := by
  exact ⟨rfl, by decide⟩

/-- C1 (amended): from any state satisfying `cursor ≤ length ≤ BUF_SIZE`, the
invariant is preserved by `handle_key` with every key, by `clear_buffer`, by
`take_command`, and by every successful `set_buffer`; an insertion at
capacity yields `BufferFull` without mutating, and an over-capacity
`set_buffer` is rejected with an error rather than silently truncated (it
stores nothing, but it leaves the buffer cleared with the cursor untouched,
which is the one operation that can break `cursor ≤ length`). -/
theorem terminal_invariant_preserved (t : Terminal) (h : t.bufferInv) :
    (∀ k, ((t.handle_key k).1).bufferInv) ∧
    t.clear_buffer.bufferInv ∧
    ((t.take_command).1).bufferInv ∧
    (∀ s, (t.set_buffer s).2 = Except.ok () → ((t.set_buffer s).1).bufferInv) ∧
    (∀ b, t.buffer.length = t.bufSize → t.handle_key (KeyCode.char b) = (t, .bufferFull)) ∧
    (∀ s, s.length > t.bufSize → (t.set_buffer s).2 = Except.error ()) := by
  obtain ⟨m, cfg, buf, cur, es⟩ := t
  obtain ⟨hc, hl⟩ := h
  simp only [Terminal.bufferInv] at hc hl
  refine ⟨?_, ?_, ?_, ?_, ?_, ?_⟩
  · intro k
    cases k with
    | enter =>
      simp only [Terminal.handle_key]
      split <;> exact ⟨hc, hl⟩
    | backspace =>
      simp only [Terminal.handle_key]
      split
      · rename_i hcond
        rw [Bool.and_eq_true, decide_eq_true_eq, Bool.not_eq_true', List.isEmpty_eq_false] at hcond
        obtain ⟨h1, h2⟩ := hcond
        have hpos : 0 < buf.length := List.length_pos.mpr h2
        refine ⟨?_, ?_⟩ <;> simp only [List.length_eraseIdx] <;> split <;> omega
      · exact ⟨hc, hl⟩
    | delete =>
      simp only [Terminal.handle_key]
      split
      · rename_i hcond
        refine ⟨?_, ?_⟩ <;> simp only [List.length_eraseIdx] <;> split <;> omega
      · exact ⟨hc, hl⟩
    | arrowLeft =>
      simp only [Terminal.handle_key]
      split
      · exact ⟨Nat.le_trans (Nat.sub_le cur 1) hc, hl⟩
      · exact ⟨hc, hl⟩
    | arrowRight =>
      simp only [Terminal.handle_key]
      split
      · rename_i hcond
        exact ⟨hcond, hl⟩
      · exact ⟨hc, hl⟩
    | arrowUp => exact ⟨hc, hl⟩
    | arrowDown => exact ⟨hc, hl⟩
    | ctrlC => exact ⟨hc, hl⟩
    | ctrlD => exact ⟨hc, hl⟩
    | tab => exact ⟨hc, hl⟩
    | escape => exact ⟨hc, hl⟩
    | char b =>
      simp only [Terminal.handle_key]
      split
      · rename_i hlt
        show cur + 1 ≤ (if cur = buf.length then buf ++ [b] else buf.insertIdx cur b).length ∧
          (if cur = buf.length then buf ++ [b] else buf.insertIdx cur b).length ≤ m
        by_cases hce : cur = buf.length
        · rw [if_pos hce, List.length_append, List.length_singleton]
          omega
        · rw [if_neg hce, List.length_insertIdx cur buf hc]
          omega
      · exact ⟨hc, hl⟩
  · exact ⟨Nat.le_refl 0, Nat.zero_le m⟩
  · simp only [Terminal.take_command]
    split
    · exact ⟨Nat.le_refl 0, Nat.zero_le m⟩
    · exact ⟨hc, hl⟩
  · intro s hok
    simp only [Terminal.set_buffer] at hok ⊢
    by_cases hgt : ([] : List Nat).length + s.length > m
    · rw [if_pos hgt] at hok
      exact absurd hok (by simp)
    · rw [if_neg hgt] at hok ⊢
      simp only [List.length_nil] at hgt
      show s.length ≤ (([] : List Nat) ++ s).length ∧ (([] : List Nat) ++ s).length ≤ m
      rw [List.nil_append]
      omega
  · intro b hfull
    have hfull' : buf.length = m := hfull
    simp only [Terminal.handle_key]
    rw [if_neg (show ¬ buf.length < m by omega)]
  · intro s hover
    have hover' : s.length > m := hover
    simp only [Terminal.set_buffer]
    rw [if_pos (show ([] : List Nat).length + s.length > m by simpa using hover')]

/-- Witness for the amended C1 at the state buffer `[0x61]`, cursor 1,
capacity 2. -/
theorem terminal_invariant_preserved_witness :
    ({ bufSize := 2, config := defaultConfig, buffer := [0x61],
       cursor_pos := 1, escape_state := .normal } : Terminal).bufferInv ∧
    ((({ bufSize := 2, config := defaultConfig, buffer := [0x61],
         cursor_pos := 1, escape_state := .normal } : Terminal).handle_key
        (KeyCode.char 0x62)).1).bufferInv ∧
    ((({ bufSize := 2, config := defaultConfig, buffer := [0x61],
         cursor_pos := 1, escape_state := .normal } : Terminal).set_buffer [0x63]).2 =
        Except.ok () →
      ((({ bufSize := 2, config := defaultConfig, buffer := [0x61],
           cursor_pos := 1, escape_state := .normal } : Terminal).set_buffer [0x63]).1).bufferInv) :=
  ⟨by decide,
   (terminal_invariant_preserved _ (by decide)).1 (KeyCode.char 0x62),
   (terminal_invariant_preserved _ (by decide)).2.2.2.1 [0x63]⟩

/-- C5 counterexample: after recording `"a"` and browsing with `previous`
(browse position `Some 0`), a call to `add` with an empty line takes the
skip-empty early return and leaves the browse position at `Some 0`, not
`None`. -/
theorem add_skip_keeps_browse_position :
    ((((((History.new 8 ⟨10, true⟩).add [0x61]).1).previous).1).add []).1.current_index =
      some 0 := rfl

/-- C5 (amended): `add` resets the browse position to `None` exactly when it
actually appends: on a non-whitespace line that is not skipped by
deduplication and whose insertion succeeds. The early-return skip paths
(all-whitespace/empty line, deduplicated line) and the failure paths leave
the browse position unchanged. -/
theorem add_append_resets_browse (h : History) (cmd : List Nat)
    (h1 : trimIsEmpty cmd = false)
    (h2 : (h.config.deduplicate && h.entries.getLast? = some cmd) = false)
    (h3 : (h.add cmd).2 = Except.ok ()) :
    ((h.add cmd).1).current_index = none := by
  obtain ⟨B, es, ⟨me, dd⟩, idx⟩ := h
  simp only [History.add] at h3 ⊢
  rw [if_neg (by simp [h1])] at h3 ⊢
  rw [if_neg (by simp_all)] at h3 ⊢
  by_cases hlen : cmd.length > B
  · rw [if_pos hlen] at h3
    exact absurd h3 (by simp)
  · rw [if_neg hlen] at h3 ⊢
    by_cases hcap : (if es.length ≥ me then es.tail else es).length < 16
    · rw [if_pos hcap]
    · rw [if_neg hcap] at h3
      exact absurd h3 (by simp)

/-- Witness for the amended C5: appending `"b"` after browsing resets the
browse position from `Some 0` to `None`. -/
theorem add_append_resets_browse_witness :
    trimIsEmpty [0x62] = false ∧
    (((((History.new 8 ⟨10, true⟩).add [0x61]).1).previous).1.config.deduplicate &&
      ((((History.new 8 ⟨10, true⟩).add [0x61]).1).previous).1.entries.getLast? =
        some [0x62]) = false ∧
    (((((History.new 8 ⟨10, true⟩).add [0x61]).1).previous).1.add [0x62]).2 = Except.ok () ∧
    ((((((History.new 8 ⟨10, true⟩).add [0x61]).1).previous).1.add [0x62]).1).current_index =
      none :=
  ⟨rfl, rfl, rfl, add_append_resets_browse _ _ rfl rfl rfl⟩

/-- Folding `add` over distinct, valid lines from an empty history with
`1 ≤ max_entries = H ≤ 16` keeps exactly the last `min H len` lines:
`entries = ls.drop (ls.length - H)`, with configuration and capacity
untouched. -/
lemma addAll_entries_drop (B H : Nat) (dedup : Bool) (h1 : 1 ≤ H) (h16 : H ≤ 16)
    (ls : List (List Nat)) :
    ls.Nodup → (∀ l ∈ ls, trimIsEmpty l = false ∧ l.length ≤ B) →
    ((History.new B ⟨H, dedup⟩).addAll ls).bufSize = B ∧
    ((History.new B ⟨H, dedup⟩).addAll ls).config = ⟨H, dedup⟩ ∧
    ((History.new B ⟨H, dedup⟩).addAll ls).entries = ls.drop (ls.length - H) := by
  induction ls using List.reverseRecOn with
  | nil =>
    intro _ _
    refine ⟨rfl, rfl, ?_⟩
    rw [List.drop_nil]
    rfl
  | append_singleton ls a ih =>
    intro hnd hval
    rw [List.nodup_append] at hnd
    obtain ⟨hnd1, -, hdisj⟩ := hnd
    have ha : a ∉ ls := fun hm => hdisj hm (List.mem_singleton_self a)
    have hva := hval a (by simp)
    have hva2 : a.length ≤ B := hva.2
    obtain ⟨hB, hcfg, hent⟩ := ih hnd1 (fun l hl => hval l (by simp [hl]))
    have hsplit : (History.new B ⟨H, dedup⟩).addAll (ls ++ [a]) =
        (((History.new B ⟨H, dedup⟩).addAll ls).add a).1 := by
      simp [History.addAll, List.foldl_append]
    rw [hsplit]
    generalize hgen : (History.new B ⟨H, dedup⟩).addAll ls = hs at hB hcfg hent
    obtain ⟨B', es', cfg', idx'⟩ := hs
    rw [show B' = B from hB, show cfg' = ⟨H, dedup⟩ from hcfg,
      show es' = ls.drop (ls.length - H) from hent]
    have hne : (ls.drop (ls.length - H)).getLast? ≠ some a := by
      intro hsome
      have hmem : a ∈ ls.drop (ls.length - H) := by
        obtain ⟨hne', heq⟩ := List.mem_getLast?_eq_getLast (Option.mem_def.mpr hsome)
        rw [heq]
        exact List.getLast_mem hne'
      exact ha (List.mem_of_mem_drop hmem)
    simp only [History.add]
    rw [if_neg (by simp [hva.1])]
    rw [if_neg (by simp [decide_eq_false hne])]
    rw [if_neg (show ¬ a.length > B by omega)]
    by_cases hcase : H ≤ ls.length
    · have hdl : (ls.drop (ls.length - H)).length = H := by
        rw [List.length_drop]; omega
      rw [if_pos (show (ls.drop (ls.length - H)).length ≥ H by omega)]
      have htl : (ls.drop (ls.length - H)).tail.length = H - 1 := by
        rw [List.length_tail, hdl]
      rw [if_pos (show (ls.drop (ls.length - H)).tail.length < 16 by omega)]
      refine ⟨rfl, rfl, ?_⟩
      show (ls.drop (ls.length - H)).tail ++ [a] = (ls ++ [a]).drop ((ls ++ [a]).length - H)
      rw [List.tail_drop, List.length_append, List.length_singleton,
        List.drop_append_eq_append_drop,
        show ls.length + 1 - H - ls.length = 0 by omega, List.drop_zero,
        show ls.length - H + 1 = ls.length + 1 - H by omega]
    · have hd0 : ls.length - H = 0 := by omega
      rw [hd0, List.drop_zero] at *
      rw [if_neg (show ¬ ls.length ≥ H by omega)]
      rw [if_pos (show ls.length < 16 by omega)]
      refine ⟨rfl, rfl, ?_⟩
      show ls ++ [a] = (ls ++ [a]).drop ((ls ++ [a]).length - H)
      rw [List.length_append, List.length_singleton,
        show ls.length + 1 - H = 0 by omega, List.drop_zero]

/-- C6 (amended): for every history capacity `1 ≤ H ≤ 16` (16 is the hard
inline capacity of the entries vector) and every sequence of `H + 1`
distinct non-whitespace lines each fitting the `BUF_SIZE` entry bound,
recording them into an empty history leaves exactly the most recent `H`
lines, oldest-first. -/
theorem history_eviction_keeps_recent (B H : Nat) (dedup : Bool)
    (lines : List (List Nat))
    (h1 : 1 ≤ H) (h16 : H ≤ 16)
    (hlen : lines.length = H + 1) (hnd : lines.Nodup)
    (hval : ∀ l ∈ lines, trimIsEmpty l = false ∧ l.length ≤ B) :
    ((History.new B ⟨H, dedup⟩).addAll lines).entries = lines.tail := by
  obtain ⟨-, -, hent⟩ := addAll_entries_drop B H dedup h1 h16 lines hnd hval
  rw [hent, hlen, show H + 1 - H = 1 by omega, List.drop_one]

/-- Witness for the amended C6: capacity 1, two distinct lines, only the
second remains. -/
theorem history_eviction_keeps_recent_witness :
    ((1 : Nat) ≤ 1 ∧ (1 : Nat) ≤ 16 ∧
      ([[0x61], [0x62]] : List (List Nat)).length = 1 + 1 ∧
      ([[0x61], [0x62]] : List (List Nat)).Nodup ∧
      ∀ l ∈ ([[0x61], [0x62]] : List (List Nat)), trimIsEmpty l = false ∧ l.length ≤ 4) ∧
    ((History.new 4 ⟨1, true⟩).addAll [[0x61], [0x62]]).entries =
      ([[0x61], [0x62]] : List (List Nat)).tail :=
  ⟨⟨by decide, by decide, by decide, by decide, by decide⟩,
   history_eviction_keeps_recent 4 1 true [[0x61], [0x62]]
     (by decide) (by decide) (by decide) (by decide) (by decide)⟩

/-- Eighteen distinct one-byte lines, all non-whitespace printable. -/
def lines18 : List (List Nat) :=
  [[0x61], [0x62], [0x63], [0x64], [0x65], [0x66], [0x67], [0x68], [0x69],
   [0x6A], [0x6B], [0x6C], [0x6D], [0x6E], [0x6F], [0x70], [0x71], [0x72]]

/-- C6 counterexample: with configured capacity `H = 17` (> the inline
vector capacity 16), recording `H + 1 = 18` distinct non-whitespace lines
keeps the 16 OLDEST lines — the pushes of the 17th and 18th lines fail
against the full inline vector because `entries.len() < max_entries`
suppresses eviction — so the stored entries are not the most recent 17. -/
theorem history_eviction_fails_beyond_inline_cap :
    (lines18.length = 17 + 1 ∧ lines18.Nodup ∧
      ∀ l ∈ lines18, trimIsEmpty l = false ∧ l.length ≤ 4) ∧
    ((History.new 4 ⟨17, true⟩).addAll lines18).entries = lines18.take 16 ∧
    ((History.new 4 ⟨17, true⟩).addAll lines18).entries ≠ lines18.tail :=
  ⟨⟨by decide, by decide, by decide⟩, by decide, by decide⟩

/-- A byte in the printable ASCII range accepted by the decoder's `Idle`
state: `0x20 ≤ b < 0x7F`. -/
@[reducible] def printableByte (b : Nat) : Prop :=
  0x20 ≤ b ∧ b ≤ 0x7E

/-- The `read_line` wiring of one input byte (src/terminal.rs lines 285-294):
decode via `process_byte`; if a key is produced, apply `handle_key`;
otherwise keep the state from the decoder. -/
def Terminal.processInputByte (t : Terminal) (b : Nat) : Terminal :=
  match t.process_byte b with
  | (t1, some key) => (t1.handle_key key).1
  | (t1, none) => t1

/-- Drive a whole byte sequence through `processInputByte`. -/
def Terminal.processInput (t : Terminal) (bs : List Nat) : Terminal :=
  bs.foldl Terminal.processInputByte t

lemma mem_of_eraseIdx {l : List Nat} {i b : Nat} (h : b ∈ l.eraseIdx i) : b ∈ l :=
  List.Sublist.mem h (List.eraseIdx_sublist l i)

lemma mem_of_insertIdx {l : List Nat} {i c b : Nat}
    (h : b ∈ l.insertIdx i c) : b = c ∨ b ∈ l := by
  induction l generalizing i with
  | nil =>
    cases i with
    | zero =>
      rw [List.insertIdx_zero] at h
      simp at h
      exact Or.inl h
    | succ j =>
      rw [List.insertIdx_succ_nil] at h
      simp at h
  | cons x xs ih =>
    cases i with
    | zero =>
      rw [List.insertIdx_zero] at h
      rcases List.mem_cons.mp h with h1 | h1
      · exact Or.inl h1
      · exact Or.inr h1
    | succ j =>
      rw [List.insertIdx_succ_cons] at h
      rcases List.mem_cons.mp h with h1 | h1
      · exact Or.inr (by simp [h1])
      · rcases ih h1 with h2 | h2
        · exact Or.inl h2
        · exact Or.inr (by simp [h2])

/-- `process_byte` never touches the edit buffer. -/
lemma process_byte_buffer_eq (t : Terminal) (b : Nat) :
    ((t.process_byte b).1).buffer = t.buffer := by
  obtain ⟨m, cfg, buf, cur, es⟩ := t
  cases es <;> simp only [Terminal.process_byte] <;> split_ifs <;> rfl

/-- Every `Char` key emitted by `process_byte` carries a printable byte. -/
lemma process_byte_char_printable (t : Terminal) (b c : Nat)
    (h : (t.process_byte b).2 = some (KeyCode.char c)) : printableByte c := by
  obtain ⟨m, cfg, buf, cur, es⟩ := t
  cases es <;> simp only [Terminal.process_byte] at h <;> split_ifs at h <;>
    simp_all <;> omega

/-- `handle_key` keeps all buffer bytes printable, provided any inserted
`Char` byte is printable. -/
lemma handle_key_printable (t : Terminal) (key : KeyCode)
    (hp : ∀ b ∈ t.buffer, printableByte b)
    (hk : ∀ c, key = KeyCode.char c → printableByte c) :
    ∀ b ∈ ((t.handle_key key).1).buffer, printableByte b := by
  obtain ⟨m, cfg, buf, cur, es⟩ := t
  cases key with
  | enter =>
    simp only [Terminal.handle_key]
    split <;> exact hp
  | backspace =>
    simp only [Terminal.handle_key]
    split
    · show ∀ b ∈ buf.eraseIdx (cur - 1), printableByte b
      exact fun b hb => hp b (mem_of_eraseIdx hb)
    · exact hp
  | delete =>
    simp only [Terminal.handle_key]
    split
    · show ∀ b ∈ buf.eraseIdx cur, printableByte b
      exact fun b hb => hp b (mem_of_eraseIdx hb)
    · exact hp
  | arrowLeft =>
    simp only [Terminal.handle_key]
    split <;> exact hp
  | arrowRight =>
    simp only [Terminal.handle_key]
    split <;> exact hp
  | arrowUp => exact hp
  | arrowDown => exact hp
  | ctrlC => exact hp
  | ctrlD => exact hp
  | tab => exact hp
  | escape => exact hp
  | char c =>
    have hc : printableByte c := hk c rfl
    simp only [Terminal.handle_key]
    split
    · show ∀ b ∈ (if cur = buf.length then buf ++ [c] else buf.insertIdx cur c),
        printableByte b
      intro b hb
      by_cases hce : cur = buf.length
      · rw [if_pos hce] at hb
        rcases List.mem_append.mp hb with h1 | h1
        · exact hp b h1
        · rw [List.mem_singleton.mp h1]
          exact hc
      · rw [if_neg hce] at hb
        rcases mem_of_insertIdx hb with h1 | h1
        · rw [h1]; exact hc
        · exact hp b h1
    · exact hp

/-- `processInputByte` preserves printability of the whole buffer. -/
lemma processInputByte_printable (t : Terminal) (b : Nat)
    (hp : ∀ x ∈ t.buffer, printableByte x) :
    ∀ x ∈ ((t.processInputByte b)).buffer, printableByte x := by
  unfold Terminal.processInputByte
  rcases hpb : t.process_byte b with ⟨t1, keyOpt⟩
  have hbuf : t1.buffer = t.buffer := by
    have h := process_byte_buffer_eq t b
    rw [hpb] at h
    exact h
  have hp1 : ∀ x ∈ t1.buffer, printableByte x := by
    rw [hbuf]; exact hp
  cases keyOpt with
  | none => exact hp1
  | some key =>
    refine handle_key_printable t1 key hp1 ?_
    intro c hkey
    refine process_byte_char_printable t b c ?_
    rw [hpb, hkey]

/-- `processInput` preserves printability of the whole buffer. -/
lemma processInput_printable (bs : List Nat) (t : Terminal)
    (hp : ∀ x ∈ t.buffer, printableByte x) :
    ∀ x ∈ ((t.processInput bs)).buffer, printableByte x := by
  induction bs generalizing t with
  | nil => exact hp
  | cons b rest ih => exact ih _ (processInputByte_printable t b hp)

/-- A list of ASCII bytes (`≤ 0x7F`) is valid UTF-8. -/
lemma ascii_utf8Valid (l : List Nat) (h : ∀ b ∈ l, b ≤ 0x7F) : utf8Valid l = true := by
  show utf8Scan [] l = true
  induction l with
  | nil => rfl
  | cons b rest ih =>
    have hexp : utf8Expect b = some [] := by
      unfold utf8Expect
      rw [if_pos (h b (by simp))]
    simp only [utf8Scan, hexp]
    exact ih fun x hx => h x (by simp [hx])

/-- C9: starting from an empty buffer, under every byte sequence fed through
the `process_byte`/`handle_key` wiring, every buffer byte lies in the
printable ASCII range `[0x20, 0x7E]`; consequently `buffer_str` succeeds and
`take_command` returns `Ok` on every such reachable state. -/
theorem printable_buffer_invariant (N : Nat) (cfg : TerminalConfig) (bs : List Nat) :
    (∀ b ∈ ((Terminal.new N cfg).processInput bs).buffer, 0x20 ≤ b ∧ b ≤ 0x7E) ∧
    ((Terminal.new N cfg).processInput bs).buffer_str =
      Except.ok ((Terminal.new N cfg).processInput bs).buffer ∧
    (((Terminal.new N cfg).processInput bs).take_command).2 =
      Except.ok ((Terminal.new N cfg).processInput bs).buffer := by
  have hp := processInput_printable bs (Terminal.new N cfg)
    (fun x hx => absurd hx (List.not_mem_nil x))
  have hv : utf8Valid ((Terminal.new N cfg).processInput bs).buffer = true :=
    ascii_utf8Valid _ fun b hb => le_trans (hp b hb).2 (by omega)
  refine ⟨hp, ?_, ?_⟩
  · simp only [Terminal.buffer_str]
    rw [if_pos hv]
  · simp only [Terminal.take_command]
    rw [if_pos hv]
